import Mathlib

/-!
Verification of the L3 scope checker (`check.py`) and the letrec eliminator
(`eliminate_letrec.py`) of the L3 → L2 lowering stage.

The term grammars `L3Term` / `L2Term` and the `Program` wrappers are modelled
from the spec (section 3, DATA MODEL); the repository treats the term
definitions as given (its `syntax` modules are external to the checked core).
The functions `check_term`, `check_program`, `eliminate_letrec_term` and
`eliminate_letrec_program` are direct embeddings of the Python source.
-/

/-- Identifiers are strings, as in the Python source. -/
abbrev Identifier := String

/-- Modelled from the spec: the source intermediate language term grammar
(spec section 3), a closed algebraic type.  The repository's `L3/syntax`
module is external to the checked core. -/
inductive L3Term where
  | Immediate (value : Int)
  | Reference (name : Identifier)
  | Let (bindings : List (Identifier × L3Term)) (body : L3Term)
  | LetRec (bindings : List (Identifier × L3Term)) (body : L3Term)
  | Abstract (parameters : List Identifier) (body : L3Term)
  | Apply (target : L3Term) (arguments : List L3Term)
  | Primitive (operator : String) (left : L3Term) (right : L3Term)
  | Branch (operator : String) (left : L3Term) (right : L3Term)
      (consequent : L3Term) (otherwise : L3Term)
  | Allocate (count : Nat)
  | Load (base : L3Term) (index : Nat)
  | Store (base : L3Term) (index : Nat) (value : L3Term)
  | Begin (effects : List L3Term) (value : L3Term)

/-- Modelled from the spec: the target intermediate language mirrors the
source grammar exactly except that it has no LetRec variant (spec section 3).
The repository's `L2/syntax` module is external to the checked core. -/
inductive L2Term where
  | Immediate (value : Int)
  | Reference (name : Identifier)
  | Let (bindings : List (Identifier × L2Term)) (body : L2Term)
  | Abstract (parameters : List Identifier) (body : L2Term)
  | Apply (target : L2Term) (arguments : List L2Term)
  | Primitive (operator : String) (left : L2Term) (right : L2Term)
  | Branch (operator : String) (left : L2Term) (right : L2Term)
      (consequent : L2Term) (otherwise : L2Term)
  | Allocate (count : Nat)
  | Load (base : L2Term) (index : Nat)
  | Store (base : L2Term) (index : Nat) (value : L2Term)
  | Begin (effects : List L2Term) (value : L2Term)

/-- Modelled from the spec: a program is a parameter list plus a body term. -/
structure L3Program where
  parameters : List Identifier
  body : L3Term

/-- Modelled from the spec: a target-language program. -/
structure L2Program where
  parameters : List Identifier
  body : L2Term

/-- A scope context: the Python code uses a `Mapping[Identifier, None]` purely
for key membership; we embed it as a list of identifiers, membership only. -/
abbrev Context := List Identifier

/-- The violations `check.py` signals (it raises `ValueError` with a message;
the message's shape distinguishes the three kinds and carries the payload:
`unknown variable: name`, `duplicate binders: {name: count}`,
`duplicate parameters: {names}`). -/
inductive CheckError where
  | UnboundVariable (name : Identifier)
  | DuplicateBinders (duplicates : List (Identifier × Nat))
  | DuplicateParameters (duplicates : List Identifier)
deriving DecidableEq

/-- Names of `names` in first-occurrence order with later repeats dropped:
the key order of Python's `Counter(names)`. -/
def uniqueNames : List Identifier → List Identifier → List Identifier
  | [], _ => []
  | n :: rest, seen =>
      if seen.contains n then uniqueNames rest seen
      else n :: uniqueNames rest (n :: seen)

/-- Embeds `{name: count for name, count in Counter(names).items() if count > 1}`
from `check.py` (the `Let`/`LetRec` duplicate-binder payload). -/
def duplicateCounts (names : List Identifier) : List (Identifier × Nat) :=
  (uniqueNames names []).filterMap fun n =>
    let c := names.count n
    if 1 < c then some (n, c) else none

/-- Embeds `{name for name, count in Counter(names).items() if count > 1}`
from `check.py` (the `Abstract`/`Program` duplicate-parameter payload). -/
def duplicateNameSet (names : List Identifier) : List Identifier :=
  (uniqueNames names []).filter fun n => 1 < names.count n

mutual

/-- Embedding of `check_term` from `check.py`: structural recursion over the
term, threading the visible-name context; raising `ValueError` is embedded as
returning `Except.error`. -/
def check_term : L3Term → Context → Except CheckError Unit
  | .Let bindings body, context =>
      let dups := duplicateCounts (bindings.map Prod.fst)
      if dups.isEmpty then do
        check_values bindings context
        check_term body (context ++ bindings.map Prod.fst)
      else .error (.DuplicateBinders dups)
  | .LetRec bindings body, context =>
      let dups := duplicateCounts (bindings.map Prod.fst)
      if dups.isEmpty then do
        check_values bindings (context ++ bindings.map Prod.fst)
        check_term body (context ++ bindings.map Prod.fst)
      else .error (.DuplicateBinders dups)
  | .Reference name, context =>
      if context.contains name then .ok () else .error (.UnboundVariable name)
  | .Abstract parameters body, context =>
      let dups := duplicateNameSet parameters
      if dups.isEmpty then check_term body (context ++ parameters)
      else .error (.DuplicateParameters dups)
  | .Apply target arguments, context => do
      check_term target context
      check_each arguments context
  | .Immediate _, _ => .ok ()
  | .Primitive _ left right, context => do
      check_term left context
      check_term right context
  | .Branch _ left right consequent otherwise, context => do
      check_term left context
      check_term right context
      check_term consequent context
      check_term otherwise context
  | .Allocate _, _ => .ok ()
  | .Load base _, context => check_term base context
  | .Store base _ value, context => do
      check_term base context
      check_term value context
  | .Begin effects value, context => do
      check_each effects context
      check_term value context

/-- The `for _, value in bindings: recur(value, ctx=...)` loops of `check.py`:
check every binding's value under the given context, in order, fail fast. -/
def check_values : List (Identifier × L3Term) → Context → Except CheckError Unit
  | [], _ => .ok ()
  | (_, value) :: rest, context => do
      check_term value context
      check_values rest context

/-- The `for t in terms: recur(t, ctx=context)` loops of `check.py`:
check every term in order under one context, fail fast. -/
def check_each : List L3Term → Context → Except CheckError Unit
  | [], _ => .ok ()
  | t :: rest, context => do
      check_term t context
      check_each rest context

end

/-- Embedding of `check_program` from `check.py`. -/
def check_program (program : L3Program) : Except CheckError Unit :=
  let dups := duplicateNameSet program.parameters
  if dups.isEmpty then check_term program.body program.parameters
  else .error (.DuplicateParameters dups)

mutual

/-- Embedding of `eliminate_letrec_term` from `eliminate_letrec.py`:
`context` is the set of recursive names currently in scope. -/
def eliminate_letrec_term : L3Term → Context → L2Term
  | .Let bindings body, context =>
      .Let (eliminate_letrec_bindings bindings context)
        (eliminate_letrec_term body context)
  | .LetRec bindings body, context =>
      let rec_ctx := context ++ bindings.map Prod.fst
      .Let (bindings.map fun p => (p.1, L2Term.Allocate 1))
        (.Begin (eliminate_letrec_stores bindings rec_ctx)
          (eliminate_letrec_term body rec_ctx))
  | .Reference name, context =>
      if context.contains name then .Load (.Reference name) 0
      else .Reference name
  | .Abstract parameters body, context =>
      .Abstract parameters (eliminate_letrec_term body context)
  | .Apply target arguments, context =>
      .Apply (eliminate_letrec_term target context)
        (eliminate_letrec_each arguments context)
  | .Immediate value, _ => .Immediate value
  | .Primitive op left right, context =>
      .Primitive op (eliminate_letrec_term left context)
        (eliminate_letrec_term right context)
  | .Branch op left right consequent otherwise, context =>
      .Branch op (eliminate_letrec_term left context)
        (eliminate_letrec_term right context)
        (eliminate_letrec_term consequent context)
        (eliminate_letrec_term otherwise context)
  | .Allocate count, _ => .Allocate count
  | .Load base index, context => .Load (eliminate_letrec_term base context) index
  | .Store base index value, context =>
      .Store (eliminate_letrec_term base context) index
        (eliminate_letrec_term value context)
  | .Begin effects value, context =>
      .Begin (eliminate_letrec_each effects context)
        (eliminate_letrec_term value context)

/-- The `Let` binding loop of `eliminate_letrec.py`: lower each binding's
value, keeping the binder names. -/
def eliminate_letrec_bindings :
    List (Identifier × L3Term) → Context → List (Identifier × L2Term)
  | [], _ => []
  | (name, value) :: rest, context =>
      (name, eliminate_letrec_term value context) ::
        eliminate_letrec_bindings rest context

/-- The `LetRec` store loop of `eliminate_letrec.py`: one
`Store(Reference(name), 0, lowered value)` per binding, in order. -/
def eliminate_letrec_stores :
    List (Identifier × L3Term) → Context → List L2Term
  | [], _ => []
  | (name, value) :: rest, context =>
      .Store (.Reference name) 0 (eliminate_letrec_term value context) ::
        eliminate_letrec_stores rest context

/-- The list comprehensions `[recur(t) for t in terms]` of
`eliminate_letrec.py`. -/
def eliminate_letrec_each : List L3Term → Context → List L2Term
  | [], _ => []
  | t :: rest, context =>
      eliminate_letrec_term t context :: eliminate_letrec_each rest context

end

/-- Embedding of `eliminate_letrec_program` from `eliminate_letrec.py`:
lower the body starting from the empty recursive-name set. -/
def eliminate_letrec_program (program : L3Program) : L2Program :=
  ⟨program.parameters, eliminate_letrec_term program.body []⟩

/-- A list of names contains a literal repeat (some name occurs twice). -/
def hasRepeat : List Identifier → Bool
  | [] => false
  | n :: rest => rest.contains n || hasRepeat rest

mutual

/-- Somewhere in the term tree, a `Let`/`LetRec` binding list or an
`Abstract` parameter list has a repeated name. -/
def hasDuplicateBinding : L3Term → Bool
  | .Let bindings body =>
      hasRepeat (bindings.map Prod.fst) || hasDuplicateBindingValues bindings
        || hasDuplicateBinding body
  | .LetRec bindings body =>
      hasRepeat (bindings.map Prod.fst) || hasDuplicateBindingValues bindings
        || hasDuplicateBinding body
  | .Reference _ => false
  | .Abstract parameters body =>
      hasRepeat parameters || hasDuplicateBinding body
  | .Apply target arguments =>
      hasDuplicateBinding target || hasDuplicateBindingList arguments
  | .Immediate _ => false
  | .Primitive _ left right =>
      hasDuplicateBinding left || hasDuplicateBinding right
  | .Branch _ left right consequent otherwise =>
      hasDuplicateBinding left || hasDuplicateBinding right
        || hasDuplicateBinding consequent || hasDuplicateBinding otherwise
  | .Allocate _ => false
  | .Load base _ => hasDuplicateBinding base
  | .Store base _ value => hasDuplicateBinding base || hasDuplicateBinding value
  | .Begin effects value =>
      hasDuplicateBindingList effects || hasDuplicateBinding value

/-- Any binding value in the list has a duplicate somewhere inside. -/
def hasDuplicateBindingValues : List (Identifier × L3Term) → Bool
  | [] => false
  | (_, value) :: rest =>
      hasDuplicateBinding value || hasDuplicateBindingValues rest

/-- Any term in the list has a duplicate somewhere inside. -/
def hasDuplicateBindingList : List L3Term → Bool
  | [] => false
  | t :: rest => hasDuplicateBinding t || hasDuplicateBindingList rest

end

/-- The program's own parameter list has a repeat, or its body contains a
binding construct with a repeated name. -/
def hasDuplicateBindingProgram (program : L3Program) : Bool :=
  hasRepeat program.parameters || hasDuplicateBinding program.body

mutual

/-- The term contains a `Reference` whose name is not bound by any enclosing
binder: `ctx` is the set of names bound by enclosing `Program`/`Let`/
`LetRec`/`Abstract` binders, threaded by the language's scoping rules
(`Let` right-hand sides do not see the let's own binders, `LetRec`
right-hand sides and body see all of them, spec section 3). -/
def hasUnboundRef : L3Term → Context → Bool
  | .Let bindings body, ctx =>
      hasUnboundRefValues bindings ctx
        || hasUnboundRef body (ctx ++ bindings.map Prod.fst)
  | .LetRec bindings body, ctx =>
      hasUnboundRefValues bindings (ctx ++ bindings.map Prod.fst)
        || hasUnboundRef body (ctx ++ bindings.map Prod.fst)
  | .Reference name, ctx => !ctx.contains name
  | .Abstract parameters body, ctx => hasUnboundRef body (ctx ++ parameters)
  | .Apply target arguments, ctx =>
      hasUnboundRef target ctx || hasUnboundRefList arguments ctx
  | .Immediate _, _ => false
  | .Primitive _ left right, ctx =>
      hasUnboundRef left ctx || hasUnboundRef right ctx
  | .Branch _ left right consequent otherwise, ctx =>
      hasUnboundRef left ctx || hasUnboundRef right ctx
        || hasUnboundRef consequent ctx || hasUnboundRef otherwise ctx
  | .Allocate _, _ => false
  | .Load base _, ctx => hasUnboundRef base ctx
  | .Store base _ value, ctx => hasUnboundRef base ctx || hasUnboundRef value ctx
  | .Begin effects value, ctx =>
      hasUnboundRefList effects ctx || hasUnboundRef value ctx

/-- Any binding value contains an unbound reference under `ctx`. -/
def hasUnboundRefValues : List (Identifier × L3Term) → Context → Bool
  | [], _ => false
  | (_, value) :: rest, ctx =>
      hasUnboundRef value ctx || hasUnboundRefValues rest ctx

/-- Any term in the list contains an unbound reference under `ctx`. -/
def hasUnboundRefList : List L3Term → Context → Bool
  | [], _ => false
  | t :: rest, ctx => hasUnboundRef t ctx || hasUnboundRefList rest ctx

end

/-- The program's body contains a reference not bound by any enclosing
binder (the top-level context is the program's parameter list). -/
def hasUnboundRefProgram (program : L3Program) : Bool :=
  hasUnboundRef program.body program.parameters

mutual

/-- The source term contains no `LetRec` node. -/
def letRecFree : L3Term → Bool
  | .Let bindings body => letRecFreeValues bindings && letRecFree body
  | .LetRec _ _ => false
  | .Reference _ => true
  | .Abstract _ body => letRecFree body
  | .Apply target arguments => letRecFree target && letRecFreeList arguments
  | .Immediate _ => true
  | .Primitive _ left right => letRecFree left && letRecFree right
  | .Branch _ left right consequent otherwise =>
      letRecFree left && letRecFree right && letRecFree consequent
        && letRecFree otherwise
  | .Allocate _ => true
  | .Load base _ => letRecFree base
  | .Store base _ value => letRecFree base && letRecFree value
  | .Begin effects value => letRecFreeList effects && letRecFree value

/-- Every binding value in the list is `LetRec`-free. -/
def letRecFreeValues : List (Identifier × L3Term) → Bool
  | [] => true
  | (_, value) :: rest => letRecFree value && letRecFreeValues rest

/-- Every term in the list is `LetRec`-free. -/
def letRecFreeList : List L3Term → Bool
  | [] => true
  | t :: rest => letRecFree t && letRecFreeList rest

end

mutual

/-- Modelled from the spec: the structural identity between the two term
languages (spec section 3: the target language mirrors the source exactly
except for `LetRec`).  Maps each source variant to the target variant of the
same shape, with every field and ordering preserved; `none` on `LetRec`,
which has no counterpart. -/
def l3ToL2 : L3Term → Option L2Term
  | .Let bindings body => do
      let bs ← l3ToL2Bindings bindings
      let b ← l3ToL2 body
      pure (.Let bs b)
  | .LetRec _ _ => none
  | .Reference name => pure (.Reference name)
  | .Abstract parameters body => do
      let b ← l3ToL2 body
      pure (.Abstract parameters b)
  | .Apply target arguments => do
      let t ← l3ToL2 target
      let args ← l3ToL2List arguments
      pure (.Apply t args)
  | .Immediate value => pure (.Immediate value)
  | .Primitive op left right => do
      let l ← l3ToL2 left
      let r ← l3ToL2 right
      pure (.Primitive op l r)
  | .Branch op left right consequent otherwise => do
      let l ← l3ToL2 left
      let r ← l3ToL2 right
      let c ← l3ToL2 consequent
      let o ← l3ToL2 otherwise
      pure (.Branch op l r c o)
  | .Allocate count => pure (.Allocate count)
  | .Load base index => do
      let b ← l3ToL2 base
      pure (.Load b index)
  | .Store base index value => do
      let b ← l3ToL2 base
      let v ← l3ToL2 value
      pure (.Store b index v)
  | .Begin effects value => do
      let es ← l3ToL2List effects
      let v ← l3ToL2 value
      pure (.Begin es v)

/-- Structural identity, binding lists. -/
def l3ToL2Bindings :
    List (Identifier × L3Term) → Option (List (Identifier × L2Term))
  | [] => pure []
  | (name, value) :: rest => do
      let v ← l3ToL2 value
      let vs ← l3ToL2Bindings rest
      pure ((name, v) :: vs)

/-- Structural identity, term lists. -/
def l3ToL2List : List L3Term → Option (List L2Term)
  | [] => pure []
  | t :: rest => do
      let u ← l3ToL2 t
      let us ← l3ToL2List rest
      pure (u :: us)

end

mutual

/-- The target term contains no `LetRec` node.  The target grammar has no
such variant, so this traversal can never answer `false`; it is stated over
the tree so the absence claim is about the whole output tree. -/
def letRecFreeL2 : L2Term → Bool
  | .Let bindings body => letRecFreeL2Values bindings && letRecFreeL2 body
  | .Reference _ => true
  | .Abstract _ body => letRecFreeL2 body
  | .Apply target arguments => letRecFreeL2 target && letRecFreeL2List arguments
  | .Immediate _ => true
  | .Primitive _ left right => letRecFreeL2 left && letRecFreeL2 right
  | .Branch _ left right consequent otherwise =>
      letRecFreeL2 left && letRecFreeL2 right && letRecFreeL2 consequent
        && letRecFreeL2 otherwise
  | .Allocate _ => true
  | .Load base _ => letRecFreeL2 base
  | .Store base _ value => letRecFreeL2 base && letRecFreeL2 value
  | .Begin effects value => letRecFreeL2List effects && letRecFreeL2 value

/-- Every binding value of the target list is `LetRec`-free. -/
def letRecFreeL2Values : List (Identifier × L2Term) → Bool
  | [] => true
  | (_, value) :: rest => letRecFreeL2 value && letRecFreeL2Values rest

/-- Every target term in the list is `LetRec`-free. -/
def letRecFreeL2List : List L2Term → Bool
  | [] => true
  | t :: rest => letRecFreeL2 t && letRecFreeL2List rest

end

/-- The lowered program's whole tree is `LetRec`-free. -/
def letRecFreeL2Program (program : L2Program) : Bool :=
  letRecFreeL2 program.body

/-! Helper lemmas. -/

theorem exceptBind_ok_iff (a : Except CheckError Unit)
    (f : Unit → Except CheckError Unit) :
    (a >>= f) = .ok () ↔ (a = .ok () ∧ f () = .ok ()) := by
  cases a with
  | error e => simp [Bind.bind, Except.bind]
  | ok u => cases u; simp [Bind.bind, Except.bind]

theorem check_values_ok_iff (bs : List (Identifier × L3Term)) (ctx : Context) :
    check_values bs ctx = .ok () ↔ ∀ p ∈ bs, check_term p.2 ctx = .ok () := by
  induction bs with
  | nil => simp [check_values]
  | cons p rest ih =>
      obtain ⟨n, v⟩ := p
      rw [check_values, exceptBind_ok_iff]
      simp [ih]

theorem check_each_ok_iff (ts : List L3Term) (ctx : Context) :
    check_each ts ctx = .ok () ↔ ∀ t ∈ ts, check_term t ctx = .ok () := by
  induction ts with
  | nil => simp [check_each]
  | cons t rest ih =>
      rw [check_each, exceptBind_ok_iff]
      simp [ih]

theorem mem_uniqueNames (a : Identifier) :
    ∀ (ns seen : List Identifier),
      a ∈ uniqueNames ns seen ↔ (a ∈ ns ∧ a ∉ seen)
  | [], seen => by simp [uniqueNames]
  | n :: rest, seen => by
      rw [uniqueNames]
      by_cases h : seen.contains n
      · rw [if_pos h]
        have hn : n ∈ seen := by simpa using h
        rw [mem_uniqueNames a rest seen]
        simp only [List.mem_cons]
        by_cases han : a = n
        · subst han; tauto
        · tauto
      · rw [if_neg h]
        have hn : n ∉ seen := by simpa using h
        simp only [List.mem_cons, mem_uniqueNames a rest (n :: seen)]
        by_cases han : a = n
        · subst han; tauto
        · tauto

theorem duplicateCounts_eq_nil_iff (ns : List Identifier) :
    duplicateCounts ns = [] ↔ ns.Nodup := by
  rw [duplicateCounts, List.filterMap_eq_nil_iff]
  constructor
  · intro h
    rw [List.nodup_iff_count_le_one]
    intro a
    by_cases ha : a ∈ ns
    · have h2 := h a ((mem_uniqueNames a ns []).2 ⟨ha, by simp⟩)
      by_contra hc
      rw [not_le] at hc
      simp only [hc, if_pos] at h2
      exact absurd h2 (by simp)
    · have : ns.count a = 0 := by
        by_contra hz
        exact ha (List.count_pos_iff.1 (Nat.pos_of_ne_zero hz))
      omega
  · intro hnd a _
    have hle := List.nodup_iff_count_le_one.1 hnd a
    have : ¬ 1 < ns.count a := by omega
    simp [this]

theorem duplicateNameSet_eq_nil_iff (ns : List Identifier) :
    duplicateNameSet ns = [] ↔ ns.Nodup := by
  rw [duplicateNameSet, List.filter_eq_nil_iff]
  constructor
  · intro h
    rw [List.nodup_iff_count_le_one]
    intro a
    by_cases ha : a ∈ ns
    · have h2 := h a ((mem_uniqueNames a ns []).2 ⟨ha, by simp⟩)
      simpa using h2
    · have : ns.count a = 0 := by
        by_contra hz
        exact ha (List.count_pos_iff.1 (Nat.pos_of_ne_zero hz))
      omega
  · intro hnd a _
    have hle := List.nodup_iff_count_le_one.1 hnd a
    simp
    omega

theorem hasRepeat_eq_false_iff (ns : List Identifier) :
    hasRepeat ns = false ↔ ns.Nodup := by
  induction ns with
  | nil => simp [hasRepeat]
  | cons n rest ih =>
      rw [hasRepeat]
      simp [ih, List.nodup_cons, List.contains]

theorem eliminate_letrec_stores_eq_map :
    ∀ (bs : List (Identifier × L3Term)) (ctx : Context),
      eliminate_letrec_stores bs ctx =
        bs.map fun p =>
          L2Term.Store (.Reference p.1) 0 (eliminate_letrec_term p.2 ctx)
  | [], _ => rfl
  | (n, v) :: rest, ctx => by
      rw [eliminate_letrec_stores, eliminate_letrec_stores_eq_map rest ctx]
      rfl

theorem eliminate_letrec_bindings_eq_map :
    ∀ (bs : List (Identifier × L3Term)) (ctx : Context),
      eliminate_letrec_bindings bs ctx =
        bs.map fun p => (p.1, eliminate_letrec_term p.2 ctx)
  | [], _ => rfl
  | (n, v) :: rest, ctx => by
      rw [eliminate_letrec_bindings, eliminate_letrec_bindings_eq_map rest ctx]
      rfl

/-! The checker accepts only scope-correct trees: mutual structural
inductions following the shape of `check_term`. -/

mutual

theorem check_term_ok_unbound :
    ∀ (t : L3Term) (ctx : Context), check_term t ctx = .ok () →
      hasUnboundRef t ctx = false
  | .Let bindings body, ctx, h => by
      rw [check_term] at h
      split at h
      · rw [exceptBind_ok_iff] at h
        rw [hasUnboundRef]
        rw [check_values_ok_unbound _ _ h.1, check_term_ok_unbound _ _ h.2]
        rfl
      · exact absurd h (by simp)
  | .LetRec bindings body, ctx, h => by
      rw [check_term] at h
      split at h
      · rw [exceptBind_ok_iff] at h
        rw [hasUnboundRef]
        rw [check_values_ok_unbound _ _ h.1, check_term_ok_unbound _ _ h.2]
        rfl
      · exact absurd h (by simp)
  | .Reference name, ctx, h => by
      rw [check_term] at h
      rw [hasUnboundRef]
      split at h
      · next hc => rw [hc]; rfl
      · exact absurd h (by simp)
  | .Abstract parameters body, ctx, h => by
      rw [check_term] at h
      split at h
      · rw [hasUnboundRef]
        exact check_term_ok_unbound _ _ h
      · exact absurd h (by simp)
  | .Apply target arguments, ctx, h => by
      rw [check_term, exceptBind_ok_iff] at h
      rw [hasUnboundRef]
      rw [check_term_ok_unbound _ _ h.1, check_each_ok_unbound _ _ h.2]
      rfl
  | .Immediate _, ctx, _ => rfl
  | .Primitive _ left right, ctx, h => by
      rw [check_term, exceptBind_ok_iff] at h
      rw [hasUnboundRef]
      rw [check_term_ok_unbound _ _ h.1, check_term_ok_unbound _ _ h.2]
      rfl
  | .Branch _ left right consequent otherwise, ctx, h => by
      rw [check_term, exceptBind_ok_iff, exceptBind_ok_iff,
        exceptBind_ok_iff] at h
      rw [hasUnboundRef]
      rw [check_term_ok_unbound _ _ h.1, check_term_ok_unbound _ _ h.2.1,
        check_term_ok_unbound _ _ h.2.2.1, check_term_ok_unbound _ _ h.2.2.2]
      rfl
  | .Allocate _, ctx, _ => rfl
  | .Load base _, ctx, h => by
      rw [check_term] at h
      rw [hasUnboundRef]
      exact check_term_ok_unbound _ _ h
  | .Store base _ value, ctx, h => by
      rw [check_term, exceptBind_ok_iff] at h
      rw [hasUnboundRef]
      rw [check_term_ok_unbound _ _ h.1, check_term_ok_unbound _ _ h.2]
      rfl
  | .Begin effects value, ctx, h => by
      rw [check_term, exceptBind_ok_iff] at h
      rw [hasUnboundRef]
      rw [check_each_ok_unbound _ _ h.1, check_term_ok_unbound _ _ h.2]
      rfl

theorem check_values_ok_unbound :
    ∀ (bs : List (Identifier × L3Term)) (ctx : Context),
      check_values bs ctx = .ok () → hasUnboundRefValues bs ctx = false
  | [], _, _ => rfl
  | (n, v) :: rest, ctx, h => by
      rw [check_values, exceptBind_ok_iff] at h
      rw [hasUnboundRefValues]
      rw [check_term_ok_unbound _ _ h.1, check_values_ok_unbound _ _ h.2]
      rfl

theorem check_each_ok_unbound :
    ∀ (ts : List L3Term) (ctx : Context),
      check_each ts ctx = .ok () → hasUnboundRefList ts ctx = false
  | [], _, _ => rfl
  | t :: rest, ctx, h => by
      rw [check_each, exceptBind_ok_iff] at h
      rw [hasUnboundRefList]
      rw [check_term_ok_unbound _ _ h.1, check_each_ok_unbound _ _ h.2]
      rfl

end

theorem check_program_ok_unbound (p : L3Program)
    (h : check_program p = .ok ()) : hasUnboundRefProgram p = false := by
  rw [check_program] at h
  split at h
  · exact check_term_ok_unbound _ _ h
  · exact absurd h (by simp)

mutual

theorem check_term_ok_dup :
    ∀ (t : L3Term) (ctx : Context), check_term t ctx = .ok () →
      hasDuplicateBinding t = false
  | .Let bindings body, ctx, h => by
      rw [check_term] at h
      split at h
      · next hd =>
        rw [exceptBind_ok_iff] at h
        have hrep : hasRepeat (bindings.map Prod.fst) = false :=
          (hasRepeat_eq_false_iff _).2
            ((duplicateCounts_eq_nil_iff _).1 (List.isEmpty_iff.1 hd))
        rw [hasDuplicateBinding]
        rw [hrep, check_values_ok_dup _ _ h.1, check_term_ok_dup _ _ h.2]
        rfl
      · exact absurd h (by simp)
  | .LetRec bindings body, ctx, h => by
      rw [check_term] at h
      split at h
      · next hd =>
        rw [exceptBind_ok_iff] at h
        have hrep : hasRepeat (bindings.map Prod.fst) = false :=
          (hasRepeat_eq_false_iff _).2
            ((duplicateCounts_eq_nil_iff _).1 (List.isEmpty_iff.1 hd))
        rw [hasDuplicateBinding]
        rw [hrep, check_values_ok_dup _ _ h.1, check_term_ok_dup _ _ h.2]
        rfl
      · exact absurd h (by simp)
  | .Reference name, ctx, _ => rfl
  | .Abstract parameters body, ctx, h => by
      rw [check_term] at h
      split at h
      · next hd =>
        have hrep : hasRepeat parameters = false :=
          (hasRepeat_eq_false_iff _).2
            ((duplicateNameSet_eq_nil_iff _).1 (List.isEmpty_iff.1 hd))
        rw [hasDuplicateBinding]
        rw [hrep, check_term_ok_dup _ _ h]
        rfl
      · exact absurd h (by simp)
  | .Apply target arguments, ctx, h => by
      rw [check_term, exceptBind_ok_iff] at h
      rw [hasDuplicateBinding]
      rw [check_term_ok_dup _ _ h.1, check_each_ok_dup _ _ h.2]
      rfl
  | .Immediate _, ctx, _ => rfl
  | .Primitive _ left right, ctx, h => by
      rw [check_term, exceptBind_ok_iff] at h
      rw [hasDuplicateBinding]
      rw [check_term_ok_dup _ _ h.1, check_term_ok_dup _ _ h.2]
      rfl
  | .Branch _ left right consequent otherwise, ctx, h => by
      rw [check_term, exceptBind_ok_iff, exceptBind_ok_iff,
        exceptBind_ok_iff] at h
      rw [hasDuplicateBinding]
      rw [check_term_ok_dup _ _ h.1, check_term_ok_dup _ _ h.2.1,
        check_term_ok_dup _ _ h.2.2.1, check_term_ok_dup _ _ h.2.2.2]
      rfl
  | .Allocate _, ctx, _ => rfl
  | .Load base _, ctx, h => by
      rw [check_term] at h
      rw [hasDuplicateBinding]
      exact check_term_ok_dup _ _ h
  | .Store base _ value, ctx, h => by
      rw [check_term, exceptBind_ok_iff] at h
      rw [hasDuplicateBinding]
      rw [check_term_ok_dup _ _ h.1, check_term_ok_dup _ _ h.2]
      rfl
  | .Begin effects value, ctx, h => by
      rw [check_term, exceptBind_ok_iff] at h
      rw [hasDuplicateBinding]
      rw [check_each_ok_dup _ _ h.1, check_term_ok_dup _ _ h.2]
      rfl

theorem check_values_ok_dup :
    ∀ (bs : List (Identifier × L3Term)) (ctx : Context),
      check_values bs ctx = .ok () → hasDuplicateBindingValues bs = false
  | [], _, _ => rfl
  | (n, v) :: rest, ctx, h => by
      rw [check_values, exceptBind_ok_iff] at h
      rw [hasDuplicateBindingValues]
      rw [check_term_ok_dup _ _ h.1, check_values_ok_dup _ _ h.2]
      rfl

theorem check_each_ok_dup :
    ∀ (ts : List L3Term) (ctx : Context),
      check_each ts ctx = .ok () → hasDuplicateBindingList ts = false
  | [], _, _ => rfl
  | t :: rest, ctx, h => by
      rw [check_each, exceptBind_ok_iff] at h
      rw [hasDuplicateBindingList]
      rw [check_term_ok_dup _ _ h.1, check_each_ok_dup _ _ h.2]
      rfl

end

theorem check_program_ok_dup (p : L3Program)
    (h : check_program p = .ok ()) : hasDuplicateBindingProgram p = false := by
  rw [check_program] at h
  split at h
  · next hd =>
    have hrep : hasRepeat p.parameters = false :=
      (hasRepeat_eq_false_iff _).2
        ((duplicateNameSet_eq_nil_iff _).1 (List.isEmpty_iff.1 hd))
    rw [hasDuplicateBindingProgram]
    rw [hrep, check_term_ok_dup _ _ h]
    rfl
  · exact absurd h (by simp)

/-! The target grammar has no LetRec variant: every output tree is
LetRec-free. -/

mutual

theorem letRecFreeL2_always : ∀ (u : L2Term), letRecFreeL2 u = true
  | .Immediate _ => rfl
  | .Reference _ => rfl
  | .Let bindings body => by
      rw [letRecFreeL2, letRecFreeL2Values_always bindings,
        letRecFreeL2_always body]
      rfl
  | .Abstract _ body => by
      rw [letRecFreeL2]
      exact letRecFreeL2_always body
  | .Apply target arguments => by
      rw [letRecFreeL2, letRecFreeL2_always target,
        letRecFreeL2List_always arguments]
      rfl
  | .Primitive _ left right => by
      rw [letRecFreeL2, letRecFreeL2_always left, letRecFreeL2_always right]
      rfl
  | .Branch _ left right consequent otherwise => by
      rw [letRecFreeL2, letRecFreeL2_always left, letRecFreeL2_always right,
        letRecFreeL2_always consequent, letRecFreeL2_always otherwise]
      rfl
  | .Allocate _ => rfl
  | .Load base _ => by
      rw [letRecFreeL2]
      exact letRecFreeL2_always base
  | .Store base _ value => by
      rw [letRecFreeL2, letRecFreeL2_always base, letRecFreeL2_always value]
      rfl
  | .Begin effects value => by
      rw [letRecFreeL2, letRecFreeL2List_always effects,
        letRecFreeL2_always value]
      rfl

theorem letRecFreeL2Values_always :
    ∀ (bs : List (Identifier × L2Term)), letRecFreeL2Values bs = true
  | [] => rfl
  | (n, v) :: rest => by
      rw [letRecFreeL2Values, letRecFreeL2_always v,
        letRecFreeL2Values_always rest]
      rfl

theorem letRecFreeL2List_always :
    ∀ (ts : List L2Term), letRecFreeL2List ts = true
  | [] => rfl
  | t :: rest => by
      rw [letRecFreeL2List, letRecFreeL2_always t, letRecFreeL2List_always rest]
      rfl

end

/-! Lowering a LetRec-free term under the empty recursive-name set is the
structural identity. -/

mutual

theorem letRecFree_eliminate :
    ∀ (t : L3Term), letRecFree t = true →
      l3ToL2 t = some (eliminate_letrec_term t [])
  | .Immediate _, _ => rfl
  | .Reference _, _ => rfl
  | .Let bindings body, h => by
      rw [letRecFree, Bool.and_eq_true] at h
      rw [l3ToL2, letRecFreeValues_eliminate _ h.1, letRecFree_eliminate _ h.2]
      rfl
  | .Abstract parameters body, h => by
      rw [letRecFree] at h
      rw [l3ToL2, letRecFree_eliminate _ h]
      rfl
  | .Apply target arguments, h => by
      rw [letRecFree, Bool.and_eq_true] at h
      rw [l3ToL2, letRecFree_eliminate _ h.1, letRecFreeList_eliminate _ h.2]
      rfl
  | .Primitive _ left right, h => by
      rw [letRecFree, Bool.and_eq_true] at h
      rw [l3ToL2, letRecFree_eliminate _ h.1, letRecFree_eliminate _ h.2]
      rfl
  | .Branch _ left right consequent otherwise, h => by
      rw [letRecFree, Bool.and_eq_true, Bool.and_eq_true,
        Bool.and_eq_true] at h
      rw [l3ToL2, letRecFree_eliminate _ h.1.1.1,
        letRecFree_eliminate _ h.1.1.2, letRecFree_eliminate _ h.1.2,
        letRecFree_eliminate _ h.2]
      rfl
  | .Allocate _, _ => rfl
  | .Load base _, h => by
      rw [letRecFree] at h
      rw [l3ToL2, letRecFree_eliminate _ h]
      rfl
  | .Store base _ value, h => by
      rw [letRecFree, Bool.and_eq_true] at h
      rw [l3ToL2, letRecFree_eliminate _ h.1, letRecFree_eliminate _ h.2]
      rfl
  | .Begin effects value, h => by
      rw [letRecFree, Bool.and_eq_true] at h
      rw [l3ToL2, letRecFreeList_eliminate _ h.1, letRecFree_eliminate _ h.2]
      rfl

theorem letRecFreeValues_eliminate :
    ∀ (bs : List (Identifier × L3Term)), letRecFreeValues bs = true →
      l3ToL2Bindings bs = some (eliminate_letrec_bindings bs [])
  | [], _ => rfl
  | (n, v) :: rest, h => by
      rw [letRecFreeValues, Bool.and_eq_true] at h
      rw [l3ToL2Bindings, letRecFree_eliminate _ h.1,
        letRecFreeValues_eliminate _ h.2]
      rfl

theorem letRecFreeList_eliminate :
    ∀ (ts : List L3Term), letRecFreeList ts = true →
      l3ToL2List ts = some (eliminate_letrec_each ts [])
  | [], _ => rfl
  | t :: rest, h => by
      rw [letRecFreeList, Bool.and_eq_true] at h
      rw [l3ToL2List, letRecFree_eliminate _ h.1, letRecFreeList_eliminate _ h.2]
      rfl

end

/-! Claims. -/

/-- Claim C1: the claim states that `check_term` rejects any `Let`/`LetRec`
binder or `Abstract` parameter whose name is already visible in the enclosing
context (shadowing disallowed), as the function's own docstring also
promises.  The code checks only for literal repeats within one binding or
parameter list; it never compares new binders against the enclosing context,
so all three shadowing forms below are accepted (`check_term` returns
normally although the bound name is already in scope). -/
theorem claim_C1_eval :
    check_term (.Let [("x", .Immediate 0)] (.Immediate 0)) ["x"] = .ok () ∧
    check_term (.LetRec [("x", .Immediate 0)] (.Immediate 0)) ["x"] = .ok () ∧
    check_term (.Abstract ["x"] (.Immediate 0)) ["x"] = .ok () :=
  ⟨rfl, rfl, rfl⟩

/-- Claim C2: lowering `LetRec(bindings, body)` under recursive names `R`
yields a target `Let` binding each binder name, in binding order, to
`Allocate(1)`, whose body is a `Begin` whose effects are, in binding order,
`Store(Reference(name), 0, lower(value, R'))`, and whose value is
`lower(body, R')`, where `R'` extends `R` with all binder names; and the
spec's one-binding example lowers to exactly the stated
allocate/store/load decomposition. -/
theorem claim_C2 :
    (∀ (bindings : List (Identifier × L3Term)) (body : L3Term) (R : Context),
      eliminate_letrec_term (.LetRec bindings body) R =
        .Let (bindings.map fun p => (p.1, L2Term.Allocate 1))
          (.Begin
            (bindings.map fun p =>
              L2Term.Store (.Reference p.1) 0
                (eliminate_letrec_term p.2 (R ++ bindings.map Prod.fst)))
            (eliminate_letrec_term body (R ++ bindings.map Prod.fst)))) ∧
    eliminate_letrec_term
        (.LetRec
          [("f", .Abstract ["x"] (.Apply (.Reference "f") [.Reference "x"]))]
          (.Apply (.Reference "f") [.Immediate 0])) [] =
      .Let [("f", .Allocate 1)]
        (.Begin
          [.Store (.Reference "f") 0
            (.Abstract ["x"]
              (.Apply (.Load (.Reference "f") 0) [.Reference "x"]))]
          (.Apply (.Load (.Reference "f") 0) [.Immediate 0])) := by
  constructor
  · intro bindings body R
    rw [eliminate_letrec_term, eliminate_letrec_stores_eq_map]
  · rfl

/-- Claim C3: for every program the checker accepts, the eliminator
terminates (it is a total function of the embedding, mirroring the
structural recursion of the source) and produces a program whose whole tree
is LetRec-free. -/
theorem claim_C3 (p : L3Program) (h : check_program p = .ok ()) :
    letRecFreeL2Program (eliminate_letrec_program p) = true :=
  letRecFreeL2_always (eliminate_letrec_term p.body [])

/-- Witness for claim C3 at a concrete accepted program. -/
theorem claim_C3_witness :
    check_program ⟨["x"], .Reference "x"⟩ = .ok () ∧
    letRecFreeL2Program (eliminate_letrec_program ⟨["x"], .Reference "x"⟩) =
      true :=
  ⟨rfl, claim_C3 ⟨["x"], .Reference "x"⟩ rfl⟩

/-- Claim C4: lowering `Reference(name)` under `R` yields
`Load(Reference(name), 0)` exactly when `name ∈ R`, and the unchanged
`Reference(name)` otherwise; in particular `Reference("x")` under the empty
set is returned unchanged. -/
theorem claim_C4 :
    (∀ (name : Identifier) (R : Context),
      eliminate_letrec_term (.Reference name) R =
        if name ∈ R then .Load (.Reference name) 0 else .Reference name) ∧
    eliminate_letrec_term (.Reference "x") [] = .Reference "x" := by
  constructor
  · intro name R
    rw [eliminate_letrec_term]
    by_cases h : name ∈ R
    · rw [if_pos h, if_pos (by simpa [List.contains] using h)]
    · rw [if_neg h, if_neg (by simpa [List.contains] using h)]
  · rfl

/-- Claim C5: for a `LetRec` whose binder names are pairwise distinct, the
checker accepts exactly when every binding's value and the body are accepted
under the context extended with all binder names of this `LetRec`. -/
theorem claim_C5 (bindings : List (Identifier × L3Term)) (body : L3Term)
    (ctx : Context) (h : (bindings.map Prod.fst).Nodup) :
    check_term (.LetRec bindings body) ctx = .ok () ↔
      ((∀ p ∈ bindings,
          check_term p.2 (ctx ++ bindings.map Prod.fst) = .ok ()) ∧
        check_term body (ctx ++ bindings.map Prod.fst) = .ok ()) := by
  have hd : duplicateCounts (bindings.map Prod.fst) = [] :=
    (duplicateCounts_eq_nil_iff _).2 h
  rw [check_term]
  simp only [hd, List.isEmpty_nil, if_true]
  rw [exceptBind_ok_iff, check_values_ok_iff]

/-- Witness for claim C5 at a concrete one-binding `LetRec`. -/
theorem claim_C5_witness :
    check_term (.LetRec [("g", .Reference "g")] (.Reference "g")) [] =
        .ok () ↔
      ((∀ p ∈ [("g", L3Term.Reference "g")],
          check_term p.2 ([] ++ ["g"]) = .ok ()) ∧
        check_term (.Reference "g") ([] ++ ["g"]) = .ok ()) :=
  claim_C5 [("g", .Reference "g")] (.Reference "g") [] (by simp)

/-- Claim C6: for a `Let` whose binder names are pairwise distinct, the
checker accepts exactly when every binding's value is accepted under the
unextended context and the body under the context extended with all binder
names; concretely, `Let([(x, Reference(x))], Immediate(0))` is accepted when
an outer `x` is visible and rejected as an unbound variable when it is not,
so the right-hand side resolves against the outer context only. -/
theorem claim_C6 (bindings : List (Identifier × L3Term)) (body : L3Term)
    (ctx : Context) (h : (bindings.map Prod.fst).Nodup) :
    (check_term (.Let bindings body) ctx = .ok () ↔
      ((∀ p ∈ bindings, check_term p.2 ctx = .ok ()) ∧
        check_term body (ctx ++ bindings.map Prod.fst) = .ok ())) ∧
    check_term (.Let [("x", .Reference "x")] (.Immediate 0)) ["x"] = .ok () ∧
    check_term (.Let [("x", .Reference "x")] (.Immediate 0)) [] =
      .error (.UnboundVariable "x") := by
  refine ⟨?_, rfl, rfl⟩
  have hd : duplicateCounts (bindings.map Prod.fst) = [] :=
    (duplicateCounts_eq_nil_iff _).2 h
  rw [check_term]
  simp only [hd, List.isEmpty_nil, if_true]
  rw [exceptBind_ok_iff, check_values_ok_iff]

/-- Witness for claim C6 at a concrete one-binding `Let`. -/
theorem claim_C6_witness :
    (check_term (.Let [("y", .Reference "z")] (.Reference "y")) ["z"] =
        .ok () ↔
      ((∀ p ∈ [("y", L3Term.Reference "z")],
          check_term p.2 ["z"] = .ok ()) ∧
        check_term (.Reference "y") (["z"] ++ ["y"]) = .ok ())) ∧
    check_term (.Let [("x", .Reference "x")] (.Immediate 0)) ["x"] = .ok () ∧
    check_term (.Let [("x", .Reference "x")] (.Immediate 0)) [] =
      .error (.UnboundVariable "x") :=
  claim_C6 [("y", .Reference "z")] (.Reference "y") ["z"] (by simp)

/-- Counterexample for claim C7: this program contains a `Reference("f")`
bound by no enclosing binder, yet the checker rejects it with a
duplicate-binder violation (on the earlier duplicate `Let`), not with
`UnboundVariable("f")` as the claim requires: the fail-fast checker reports
whichever violation it reaches first. -/
theorem claim_C7_counterexample :
    hasUnboundRefProgram
        ⟨[], .Let [("a", .Immediate 0), ("a", .Immediate 1)]
          (.Reference "f")⟩ = true ∧
    check_program
        ⟨[], .Let [("a", .Immediate 0), ("a", .Immediate 1)]
          (.Reference "f")⟩ =
      .error (.DuplicateBinders [("a", 2)]) ∧
    ∀ name : Identifier,
      CheckError.DuplicateBinders [("a", 2)] ≠ .UnboundVariable name :=
  ⟨rfl, rfl, fun _ h => CheckError.noConfusion h⟩

/-- Claim C7 (amended): every program containing a `Reference` not bound by
any enclosing `Program`/`Let`/`LetRec`/`Abstract` binder is rejected by
`check_program` (with some violation; it is `UnboundVariable` naming the
identifier when that is the first violation the traversal reaches), and in
particular `Program([], Begin([Reference("f")], Immediate(0)))` is rejected
with `UnboundVariable("f")`. -/
theorem claim_C7 :
    (∀ p : L3Program, hasUnboundRefProgram p = true →
      ∃ e, check_program p = .error e) ∧
    check_program ⟨[], .Begin [.Reference "f"] (.Immediate 0)⟩ =
      .error (.UnboundVariable "f") := by
  constructor
  · intro p h
    cases hcp : check_program p with
    | error e => exact ⟨e, rfl⟩
    | ok u =>
        cases u
        have h2 := check_program_ok_unbound p hcp
        rw [h] at h2
        exact absurd h2 (by decide)
  · rfl

/-- Witness for claim C7 at a concrete program with an unbound reference. -/
theorem claim_C7_witness :
    ∃ e, check_program ⟨["y"], .Apply (.Reference "y") [.Reference "w"]⟩ =
      .error e :=
  claim_C7.1 ⟨["y"], .Apply (.Reference "y") [.Reference "w"]⟩ rfl

/-- Claim C8: every program whose tree contains, anywhere, a `Let`/`LetRec`
binding list, an `Abstract` parameter list, or its own parameter list with a
literally repeated name is rejected by `check_program`; in particular the
spec's scenario is rejected with the duplicate-binder violation naming `f`
(the code's payload carries the occurrence count, `{f: 2}`). -/
theorem claim_C8 :
    (∀ p : L3Program, hasDuplicateBindingProgram p = true →
      ∃ e, check_program p = .error e) ∧
    check_program
        ⟨["x"], .LetRec [("f", .Immediate 0), ("f", .Immediate 1)]
          (.Immediate 0)⟩ =
      .error (.DuplicateBinders [("f", 2)]) := by
  constructor
  · intro p h
    cases hcp : check_program p with
    | error e => exact ⟨e, rfl⟩
    | ok u =>
        cases u
        have h2 := check_program_ok_dup p hcp
        rw [h] at h2
        exact absurd h2 (by decide)
  · rfl

/-- Witness for claim C8 at a concrete program with a repeated name deep in
the tree. -/
theorem claim_C8_witness :
    ∃ e, check_program
      ⟨["y"], .Begin [.Abstract ["a", "a"] (.Immediate 0)] (.Immediate 1)⟩ =
        .error e :=
  claim_C8.1
    ⟨["y"], .Begin [.Abstract ["a", "a"] (.Immediate 0)] (.Immediate 1)⟩ rfl

/-- Claim C9: lowering any LetRec-free term under the empty recursive-name
set (the set `eliminate_letrec_program` starts from) is the structural
identity between the two term languages: every variant, field and sequence
ordering is preserved exactly and no `Load` is inserted anywhere. -/
theorem claim_C9 (t : L3Term) (h : letRecFree t = true) :
    l3ToL2 t = some (eliminate_letrec_term t []) :=
  letRecFree_eliminate t h

/-- Witness for claim C9 at a concrete LetRec-free term exercising several
variants. -/
theorem claim_C9_witness :
    l3ToL2
        (.Let [("x", .Immediate 1)]
          (.Begin [.Store (.Allocate 2) 0 (.Reference "x")]
            (.Apply (.Abstract ["y"] (.Reference "y")) [.Reference "x"]))) =
      some (eliminate_letrec_term
        (.Let [("x", .Immediate 1)]
          (.Begin [.Store (.Allocate 2) 0 (.Reference "x")]
            (.Apply (.Abstract ["y"] (.Reference "y")) [.Reference "x"])))
        []) :=
  claim_C9
    (.Let [("x", .Immediate 1)]
      (.Begin [.Store (.Allocate 2) 0 (.Reference "x")]
        (.Apply (.Abstract ["y"] (.Reference "y")) [.Reference "x"])))
    rfl

/-- Claim C10: lowering an `Abstract` keeps the recursive-name set unchanged
for the body (parameters are never removed from it), so a body reference to
a name that is both a parameter and a recursive name is still rewritten to a
`Load`; in particular
`eliminate_letrec_term(Abstract(["n"], Reference("n")), {n})` is
`Abstract(["n"], Load(Reference("n"), 0))`. -/
theorem claim_C10 :
    (∀ (parameters : List Identifier) (body : L3Term) (R : Context),
      eliminate_letrec_term (.Abstract parameters body) R =
        .Abstract parameters (eliminate_letrec_term body R)) ∧
    (∀ (n : Identifier) (parameters : List Identifier) (R : Context),
      n ∈ parameters → n ∈ R →
        eliminate_letrec_term (.Abstract parameters (.Reference n)) R =
          .Abstract parameters (.Load (.Reference n) 0)) ∧
    eliminate_letrec_term (.Abstract ["n"] (.Reference "n")) ["n"] =
      .Abstract ["n"] (.Load (.Reference "n") 0) := by
  refine ⟨fun _ _ _ => by rw [eliminate_letrec_term], ?_, rfl⟩
  intro n parameters R _ hR
  rw [eliminate_letrec_term, eliminate_letrec_term,
    if_pos (by simpa [List.contains] using hR)]

/-- Witness for claim C10 at a concrete parameter shared with the
recursive-name set. -/
theorem claim_C10_witness :
    eliminate_letrec_term (.Abstract ["m"] (.Reference "m")) ["m"] =
      .Abstract ["m"] (.Load (.Reference "m") 0) :=
  claim_C10.2.1 "m" ["m"] ["m"] (by simp) (by simp)
